import Mathlib

/-!
Verification development for the XML variant generator
(src/orchestrator/python_xml_converter.py).

The generator is embedded shallowly: the Python random module is modelled
as a deterministic oracle stream of naturals (one draw per primitive
call; seeding the source corresponds to fixing the stream), date/time
instants are modelled as whole seconds since the fixed floor
2015-01-01, and strftime rendering is modelled as an injective pairing
of the format pattern with the instant (calendar arithmetic is
orthogonal to every property at issue).  Fallible operations (indexing
an empty list, choosing from an empty sequence) return Option, matching
the Python code raising IndexError.
-/

namespace XmlVariants

/-- Oracle state of the random module: a stream of pre-drawn uniform
naturals, one consumed per primitive call.  An exhausted stream keeps
yielding 0 (it models an infinite stream with a finite interesting
prefix). -/
abbrev RState : Type := List Nat

/-- Consume one draw from the oracle stream. -/
def draw : RState → Nat × RState
  | [] => (0, [])
  | k :: r => (k, r)

/-- Modelled from the spec: random.randint(lo, hi), a uniform integer in
the inclusive range; raises (none) when the range is empty. -/
def randint (lo hi : Int) (r : RState) : Option (Int × RState) :=
  if hi < lo then none
  else
    let p := draw r
    some (lo + Int.ofNat (p.1 % (hi - lo + 1).toNat), p.2)

/-- Modelled from the spec: random.choice(xs), a uniform element of a
nonempty sequence; raises (none) on an empty one. -/
def choiceL {α : Type} (xs : List α) (r : RState) : Option (α × RState) :=
  match xs with
  | [] => none
  | a :: as =>
    let p := draw r
    some ((a :: as).getD (p.1 % (as.length + 1)) a, p.2)

/-- ASCII lowering of one character, as Python str.lower acts on the
ASCII strings of this program. -/
def pyLowerChar (c : Char) : Char :=
  if 'A' ≤ c && c ≤ 'Z' then Char.ofNat (c.toNat + 32) else c

/-- ASCII lowering of a string (str.lower of the source). -/
def pyLower (s : String) : String := String.mk (s.toList.map pyLowerChar)

/-- ASCII raising of one character, as Python str.upper acts on the
ASCII strings of this program. -/
def pyUpperChar (c : Char) : Char :=
  if 'a' ≤ c && c ≤ 'z' then Char.ofNat (c.toNat - 32) else c

/-- ASCII raising of a string (str.upper of the source). -/
def pyUpper (s : String) : String := String.mk (s.toList.map pyUpperChar)

/-- Split a character list at every occurrence of the separator
(str.split semantics: n separators give n plus one groups). -/
def splitOnChar (sep : Char) : List Char → List (List Char)
  | [] => [[]]
  | c :: cs =>
    let r := splitOnChar sep cs
    if c == sep then [] :: r
    else
      match r with
      | [] => [[c]]
      | g :: gs => (c :: g) :: gs

/-- Join character-list groups with the separator between them. -/
def joinChar (sep : Char) : List (List Char) → List Char
  | [] => []
  | [g] => g
  | g :: gs => g ++ sep :: joinChar sep gs

/-- Python str.strip with no argument: remove leading and trailing
whitespace. -/
def pyStrip (s : String) : String :=
  let ws := fun c => c == ' ' || c == '\t' || c == '\n' || c == '\r' || c == '\x0b' || c == '\x0c'
  String.mk (((s.toList.dropWhile ws).reverse.dropWhile ws).reverse)

/-- Whether the first character of a string is the given one
(str.startswith of the source, used only with one-character
markers). -/
def firstCharIs (s : String) (c : Char) : Bool :=
  match s.toList with
  | [] => false
  | a :: _ => a == c

/-- Name pools of the source (FIRST_NAMES). -/
def FIRST_NAMES : List String :=
  ["Alex", "Jordan", "Taylor", "Morgan", "Casey", "Riley", "Sam", "Jamie",
   "Dee", "Kris", "Avery", "Cameron", "Hayden", "Rowan", "Sydney"]

/-- Name pools of the source (LAST_NAMES). -/
def LAST_NAMES : List String :=
  ["Smith", "Johnson", "Williams", "Brown", "Jones", "Miller", "Davis",
   "Wilson", "Anderson", "Thomas", "Jackson", "White", "Harris"]

/-- Australian state pool of the source. -/
def AU_STATES : List String := ["NSW", "VIC", "QLD", "SA", "WA", "TAS", "ACT", "NT"]

/-- Australian city pool of the source. -/
def AU_CITIES : List String :=
  ["Sydney", "Melbourne", "Brisbane", "Perth", "Adelaide",
   "Canberra", "Hobart", "Newcastle", "Wollongong", "Geelong"]

/-- Australian street pool of the source. -/
def AU_STREETS : List String :=
  ["George St", "Pitt St", "Elizabeth St", "King St",
   "Market St", "Oxford St", "Queen St", "Collins St", "Bourke St", "Bridge St"]

/-- Generic state pool of the source. -/
def GENERIC_STATES : List String :=
  ["CA", "NY", "TX", "WA", "MA", "FL", "IL", "PA", "OH", "MI"]

/-- Generic city pool of the source. -/
def GENERIC_CITIES : List String :=
  ["Springfield", "Fairview", "Riverton", "Greenville", "Madison",
   "Georgetown", "Franklin", "Arlington", "Clinton", "Dayton"]

/-- Generic street pool of the source. -/
def GENERIC_STREETS : List String :=
  ["Main St", "High St", "Park Ave", "Oak St", "Maple Ave",
   "Cedar St", "Pine St", "Elm St", "Washington Ave", "Lakeview Dr"]

/-- Uppercase letters, the pool for the middle initial
(string.ascii_uppercase in the source). -/
def ASCII_UPPERCASE : List Char := "ABCDEFGHIJKLMNOPQRSTUVWXYZ".toList

/-- random_name of the source: pick first and last name and a middle
initial, return the five name formats in dict insertion order
(first_last, last_first, first_m_last, u_case, l_case). -/
def random_name (r : RState) : Option (List String × RState) := do
  let (first, r) ← choiceL FIRST_NAMES r
  let (last, r) ← choiceL LAST_NAMES r
  let (middle, r) ← choiceL ASCII_UPPERCASE r
  some ([s!"{first} {last}",
         s!"{last}, {first}",
         s!"{first} {middle}. {last}",
         pyUpper first ++ " " ++ pyUpper last,
         pyLower first ++ " " ++ pyLower last], r)

/-- random_postcode of the source: AU postcodes in 2000..7999, generic
in 10000..99999, rendered in decimal. -/
def random_postcode (locale : String) (r : RState) : Option (String × RState) := do
  if locale == "au" then
    let (n, r) ← randint 2000 7999 r
    some (toString n, r)
  else
    let (n, r) ← randint 10000 99999 r
    some (toString n, r)

/-- random_address of the source: locale-conditioned pools, street
number 1..9999, postcode, and the four layout formats in dict insertion
order (one_line, multi_line, with_country, no_state). -/
def random_address (locale : String) (r : RState) : Option (List String × RState) := do
  let streets := if locale == "au" then AU_STREETS else GENERIC_STREETS
  let cities := if locale == "au" then AU_CITIES else GENERIC_CITIES
  let states := if locale == "au" then AU_STATES else GENERIC_STATES
  let (num, r) ← randint 1 9999 r
  let (street, r) ← choiceL streets r
  let (city, r) ← choiceL cities r
  let (state, r) ← choiceL states r
  let (pc, r) ← random_postcode locale r
  let country := if locale == "au" then "Australia" else "USA"
  some ([s!"{num} {street}, {city} {state} {pc}",
         s!"{num} {street}\n{city} {state} {pc}",
         s!"{num} {street}, {city} {state} {pc}, {country}",
         s!"{num} {street}, {city} {pc}"], r)

/-- Modelled from the spec: an instant is the whole number of seconds
past the fixed floor 2015-01-01; the strftime rendering of an instant
under a pattern keeps both recoverable (calendar arithmetic is
abstracted away, being orthogonal to every claim). -/
def strftime (fmt : String) (dt : Nat) : String := fmt ++ "@" ++ toString dt

/-- random_date_between of the source, with start fixed at the floor
and the end expressed as deltaSec whole seconds past the floor (the
source computes int(delta.total_seconds()) from datetime.now()):
a uniform instant in the inclusive range. -/
def random_date_between (deltaSec : Nat) (r : RState) : Option (Nat × RState) := do
  let (s, r) ← randint 0 (Int.ofNat deltaSec) r
  some (s.toNat, r)

/-- Zero-padded two-digit rendering, as in the 02d format of the source. -/
def pad2 (n : Nat) : String := if n < 10 then "0" ++ toString n else toString n

/-- random_tz_offset_str of the source: hours uniform in -12..14,
minutes uniform in 0,15,30,45, sign plus when hours positive or hours
zero with nonnegative minutes, else minus. -/
def random_tz_offset_str (r : RState) : Option (String × RState) := do
  let (offset_hours, r) ← randint (-12) 14 r
  let (offset_minutes, r) ← choiceL ([0, 15, 30, 45] : List Int) r
  let sign := if offset_hours > 0 ∨ (offset_hours = 0 ∧ offset_minutes ≥ 0) then "+" else "-"
  some (sign ++ pad2 offset_hours.natAbs ++ ":" ++ pad2 offset_minutes.natAbs, r)

/-- format_date_time of the source: render date and time; with
with_zone set, choose uniformly between the fixed Z marker and a random
numeric offset and append it to the time string (replacing tzinfo by
UTC does not change the rendering of the pooled time patterns). -/
def format_date_time (dt : Nat) (date_fmt time_fmt : String) (with_zone : Bool)
    (r : RState) : Option (String × String × RState) :=
  let date_str := strftime date_fmt dt
  if with_zone then do
    let (choice, r) ← choiceL ["Z", "offset"] r
    if choice == "Z" then
      some (date_str, strftime time_fmt dt ++ "Z", r)
    else do
      let (off, r) ← random_tz_offset_str r
      some (date_str, strftime time_fmt dt ++ off, r)
  else
    some (date_str, strftime time_fmt dt, r)

/-- A ValueSet: logical field key to generated string, in insertion
order, as the Python dict. -/
abbrev ValueSet : Type := List (String × String)

/-- generate_variant_values of the source: name choice, address choice,
a random instant between the floor and now (deltaSec seconds wide),
then either pool-chosen formats with a 50/50 zone decision (vary set)
or the first pool entries with no zone (vary unset; indexing an empty
pool raises).  The returned dict holds exactly the keys name, address,
date, time, in that insertion order. -/
def generate_variant_values (locale : String) (date_formats time_formats : List String)
    (vary_formats : Bool) (deltaSec : Nat) (r : RState) : Option (ValueSet × RState) := do
  let (name_formats, r) ← random_name r
  let (name_choice, r) ← choiceL name_formats r
  let (addr_formats, r) ← random_address locale r
  let (addr_choice, r) ← choiceL addr_formats r
  let (dt, r) ← random_date_between deltaSec r
  if vary_formats then
    let (date_fmt, r) ← choiceL date_formats r
    let (time_fmt, r) ← choiceL time_formats r
    let (with_zone, r) ← choiceL [true, false] r
    let (date_str, time_str, r) ← format_date_time dt date_fmt time_fmt with_zone r
    some ([("name", name_choice), ("address", addr_choice),
           ("date", date_str), ("time", time_str)], r)
  else
    let date_fmt ← date_formats.get? 0
    let time_fmt ← time_formats.get? 0
    let (date_str, time_str, r) ← format_date_time dt date_fmt time_fmt false r
    some ([("name", name_choice), ("address", addr_choice),
           ("date", date_str), ("time", time_str)], r)

/-- An element tree node as the source uses it: tag (in the library's
braced universal-name form for namespaced tags), optional text, and the
list of child elements.  Attributes and tails are never read or written
by the program and are omitted. -/
inductive Elem where
  | mk (tag : String) (text : Option String) (children : List Elem)

/-- Tag of an element. -/
def Elem.tag : Elem → String
  | .mk t _ _ => t

/-- Text of an element. -/
def Elem.text : Elem → Option String
  | .mk _ x _ => x

/-- Children of an element. -/
def Elem.children : Elem → List Elem
  | .mk _ _ cs => cs

/-- strip_ns of the source: drop a leading braced namespace, splitting
at the first closing brace. -/
def strip_ns (tag : String) : String :=
  if tag.toList.contains '\x7d' then
    String.mk (joinChar '\x7d' ((splitOnChar '\x7d' tag.toList).drop 1))
  else tag

mutual

/-- Document-order traversal of an element and all its descendants
(the iter method of the library, as used by the source). -/
def iterElems : Elem → List Elem
  | .mk t x cs => .mk t x cs :: iterElemList cs

/-- Document-order traversal of a list of sibling subtrees. -/
def iterElemList : List Elem → List Elem
  | [] => []
  | c :: cs => iterElems c ++ iterElemList cs

end

/-- find_elements_ns_agnostic of the source: every element in the tree
whose local name case-insensitively equals the given tag name. -/
def find_elements_ns_agnostic (root : Elem) (tag_name : String) : List Elem :=
  let t := pyLower tag_name
  (iterElems root).filter (fun el => pyLower (strip_ns el.tag) == t)

/-- One step of the library's limited structural-path language: a self
step, a child-tag step, or a descendant-tag step (two path tokens). -/
inductive Step where
  | self
  | child (t : String)
  | descTag (t : String)
deriving DecidableEq

/-- Whether a path token is a plain tag step.  Modelled from the spec:
the path language is limited; tokens carrying query syntax beyond plain
tag steps are treated as raising, the claims at issue exercise none of
them. -/
def isPlainTag (t : String) : Bool :=
  t ≠ "" && t ≠ "." &&
  (t.toList.all (fun c => c ≠ '/' && c ≠ '[' && c ≠ ']' && c ≠ '@' && c ≠ '*' && c ≠ '(' && c ≠ ')'))

/-- Token-list parsing of a structural path into steps; none models the
library raising on the path. -/
def parseSteps : List String → Option (List Step)
  | [] => some []
  | "." :: rest => (parseSteps rest).map (fun ss => Step.self :: ss)
  | "" :: t :: rest =>
    if isPlainTag t then (parseSteps rest).map (fun ss => Step.descTag t :: ss) else none
  | "" :: [] => none
  | t :: rest =>
    if isPlainTag t then (parseSteps rest).map (fun ss => Step.child t :: ss) else none

/-- Modelled from the spec: the library's structural-path parser.  An
absolute path (leading slash) raises on an element, a double slash
introduces a descendant search for the following tag, a dot is a self
step, and a plain token is a child-tag step. -/
def parseETPath (s : String) : Option (List Step) :=
  if firstCharIs s '/' then none
  else parseSteps ((splitOnChar '/' s.toList).map String.mk)

/-- Children of an element whose tag equals the given string exactly. -/
def childrenTagged (t : String) (e : Elem) : List Elem :=
  e.children.filter (fun c => c.tag == t)

/-- Execution of parsed path steps over a context of nodes, in document
order. -/
def execSteps (ctx : List Elem) : List Step → List Elem
  | [] => ctx
  | .self :: rest => execSteps ctx rest
  | .child t :: rest => execSteps (ctx.flatMap (childrenTagged t)) rest
  | .descTag t :: rest =>
    execSteps (ctx.flatMap (fun e => (iterElems e).flatMap (childrenTagged t))) rest

/-- findall of the library on the root element: parse the path, then
execute it from the root; none models the call raising. -/
def ET_findall (root : Elem) (path : String) : Option (List Elem) :=
  (parseETPath path).map (execSteps [root])

/-- Python str.strip with the dot-slash character set: remove leading
and trailing dots and slashes. -/
def stripDotSlash (s : String) : String :=
  let p := fun c => c == '.' || c == '/'
  String.mk (((s.toList.dropWhile p).reverse.dropWhile p).reverse)

/-- select_elements of the source: a trimmed selector starting with a
dot or slash is tried as a structural path, falling back to the
namespace-agnostic tag search (with leading dots and slashes stripped)
only when that raises; any other selector goes straight to the
namespace-agnostic tag search. -/
def select_elements (root : Elem) (selector : String) : List Elem :=
  let s := pyStrip selector
  if firstCharIs s '.' || firstCharIs s '/' then
    match ET_findall root s with
    | some els => els
    | none => find_elements_ns_agnostic root (stripDotSlash s)
  else
    find_elements_ns_agnostic root s

mutual

/-- Structural deep copy of an element tree.  The source clones by a
serialize-then-reparse round-trip through the XML library; the clone it
produces is this deep copy, an independent tree with the same
structure. -/
def ET_clone : Elem → Elem
  | .mk t x cs => .mk t x (ET_cloneList cs)

/-- Structural deep copy of a list of sibling subtrees. -/
def ET_cloneList : List Elem → List Elem
  | [] => []
  | c :: cs => ET_clone c :: ET_cloneList cs

end

mutual

/-- Serialization of an element tree to markup text (tostring of the
library).  Tags are emitted verbatim; the empty-element short form and
namespace-prefix generation are orthogonal to every claim and are not
modelled. -/
def ET_tostring : Elem → String
  | .mk t x cs => "<" ++ t ++ ">" ++ x.getD "" ++ ET_tostringList cs ++ "</" ++ t ++ ">"

/-- Serialization of a list of sibling subtrees. -/
def ET_tostringList : List Elem → String
  | [] => ""
  | c :: cs => ET_tostring c ++ ET_tostringList cs

end

/-- Declaration line emitted by tostring with xml_declaration set. -/
def XML_DECLARATION : String := "<?xml version='1.0' encoding='utf-8'?>\n"

/-- Drop leading self steps from a step suffix. -/
def dropSelfs : List Step → List Step
  | .self :: rest => dropSelfs rest
  | ss => ss

/-- Step suffixes a child with the given tag inherits from the active
suffixes of its parent: a child-tag suffix hands its remainder to
matching children, a descendant-tag suffix hands its remainder to
matching children and propagates itself to every child. -/
def childSuffixes (tg : String) (S : List (List Step)) : List (List Step) :=
  S.flatMap (fun ss =>
    match ss with
    | Step.child t :: rest => if tg == t then [rest] else []
    | Step.descTag t :: rest =>
      (if tg == t then [rest] else []) ++ [Step.descTag t :: rest]
    | _ => [])

mutual

/-- Text mutation of the nodes selected by a structural path: a node
whose normalized active suffix set contains the exhausted suffix is a
selected node and its text is set; active suffixes are pushed down to
children by tag.  This performs, as one structural rewrite, exactly the
in-place text assignments the source performs on the handle list the
path query returns. -/
def mutActive (val : String) (S : List (List Step)) : Elem → Elem
  | .mk tg x cs =>
    let Sn := S.map dropSelfs
    let x2 := if [] ∈ Sn then some val else x
    .mk tg x2 (mutActiveList val Sn cs)

/-- Text mutation of a list of sibling subtrees under the parent's
normalized active suffix set. -/
def mutActiveList (val : String) (Sn : List (List Step)) : List Elem → List Elem
  | [] => []
  | c :: cs => mutActive val (childSuffixes c.tag Sn) c :: mutActiveList val Sn cs

end

mutual

/-- Text mutation of every element whose local name case-insensitively
equals the (already lowered) tag name: the in-place text assignments
the source performs on the handle list of the namespace-agnostic
search. -/
def mutNsAgnostic (t val : String) : Elem → Elem
  | .mk tg x cs =>
    .mk tg (if pyLower (strip_ns tg) == t then some val else x) (mutNsAgnosticList t val cs)

/-- Text mutation of a list of sibling subtrees by lowered local
name. -/
def mutNsAgnosticList (t val : String) : List Elem → List Elem
  | [] => []
  | c :: cs => mutNsAgnostic t val c :: mutNsAgnosticList t val cs

end

/-- The text assignments of the source's selector loop: set the text of
every element select_elements resolves for the selector, branching
exactly as select_elements does. -/
def mutateSelected (root : Elem) (selector : String) (val : String) : Elem :=
  let s := pyStrip selector
  if firstCharIs s '.' || firstCharIs s '/' then
    match parseETPath s with
    | some steps => mutActive val [steps] root
    | none => mutNsAgnostic (pyLower (stripDotSlash s)) val root
  else
    mutNsAgnostic (pyLower s) val root

/-- apply_values_to_tree of the source: clone the tree, then for each
mapping key holding a generated value resolve its selector against the
clone and set the text of every resolved element, logging the selector
once per resolved element; keys with no generated value are skipped. -/
def apply_values_to_tree (tree : Elem) (mapping : List (String × String))
    (values : ValueSet) : Elem × List (String × List String) :=
  let new_root := ET_clone tree
  mapping.foldl (fun acc kv =>
    match values.lookup kv.1 with
    | none => acc
    | some v =>
      let els := select_elements acc.1 kv.2
      (mutateSelected acc.1 kv.2 v, acc.2 ++ [(kv.1, List.replicate els.length kv.2)]))
    (new_root, [])

/-- ensure_unique of the source: reject a tuple already in the set,
otherwise add it and accept. -/
def ensure_unique (across : List (List String)) (vals_tuple : List String) :
    Bool × List (List String) :=
  if vals_tuple ∈ across then (false, across) else (true, vals_tuple :: across)

/-- The four built-in logical field keys, in the order the generation
loop projects them. -/
def BUILTIN_KEYS : List String := ["name", "address", "date", "time"]

/-- used_keys of the generation loop: the built-in keys present in the
mapping, in the fixed built-in order. -/
def usedKeysOf (mapping : List (String × String)) : List String :=
  BUILTIN_KEYS.filter (fun k => (mapping.lookup k).isSome)

/-- vals_tuple of the generation loop: the projection of a ValueSet
onto the used keys, with the empty string for missing values. -/
def valsTupleOf (mapping : List (String × String)) (values : ValueSet) : List String :=
  (usedKeysOf mapping).map (fun k => (values.lookup k).getD "")

/-- Zero-padded three-digit rendering, as in the 03d format of the
variant filename. -/
def pad3 (n : Nat) : String :=
  if n < 10 then "00" ++ toString n
  else if n < 100 then "0" ++ toString n
  else toString n

/-- Run configuration after argument parsing: locale, the two format
pools, the vary flag, the requested count, the selector mapping and the
template base name. -/
structure Config where
  locale : String
  date_formats : List String
  time_formats : List String
  vary_formats : Bool
  n : Nat
  mapping : List (String × String)
  base_name : String
deriving DecidableEq

/-- An accepted variant: sequential id, output filename, the ValueSet
and the serialized document text. -/
structure VariantRecord where
  variant_id : Nat
  xml_filename : String
  values : ValueSet
  xml_text : String
deriving DecidableEq

/-- Mutable state of the generation loop: the uniqueness set, the
accepted variants in acceptance order, the files written so far, the
attempt counter, the oracle state, and whether value generation raised
(empty format pool). -/
structure RunState where
  seen : List (List String)
  accepted : List VariantRecord
  files : List (String × String)
  attempts : Nat
  rng : RState
  genError : Bool
deriving DecidableEq

/-- Loop state at entry: nothing seen, nothing accepted, nothing
written, no attempts. -/
def initialRunState (rng : RState) : RunState :=
  ⟨[], [], [], 0, rng, false⟩

/-- The manifest row of an accepted variant: id, filename, the four
canonical field values (empty when absent) and the document text. -/
def rowOf (r : VariantRecord) : List String :=
  [toString r.variant_id, r.xml_filename,
   (r.values.lookup "name").getD "", (r.values.lookup "address").getD "",
   (r.values.lookup "date").getD "", (r.values.lookup "time").getD "",
   r.xml_text]

/-- The generation loop of main: while fewer than n variants are
accepted and attempts remain (the fuel counts the remaining attempts of
the n times 20 budget), draw a candidate ValueSet, project it onto the
used keys, discard it when the projection was seen (no build, no file),
otherwise build the variant from the template, write the file and
append the record. -/
def genLoop (tpl : Elem) (cfg : Config) (deltaSec : Nat) : Nat → RunState → RunState
  | 0, st => st
  | fuel + 1, st =>
    if st.accepted.length < cfg.n then
      let st1 : RunState := { st with attempts := st.attempts + 1 }
      match generate_variant_values cfg.locale cfg.date_formats cfg.time_formats
        cfg.vary_formats deltaSec st1.rng with
      | none => { st1 with genError := true }
      | some (values, rng2) =>
        let vals_tuple := valsTupleOf cfg.mapping values
        let res := ensure_unique st1.seen vals_tuple
        if res.1 then
          let new_tree := (apply_values_to_tree tpl cfg.mapping values).1
          let xml_text := XML_DECLARATION ++ ET_tostring new_tree
          let variant_id := st1.accepted.length + 1
          let xml_filename := cfg.base_name ++ "_variant_" ++ pad3 variant_id ++ ".xml"
          genLoop tpl cfg deltaSec fuel
            { st1 with
              rng := rng2
              seen := res.2
              accepted := st1.accepted ++ [⟨variant_id, xml_filename, values, xml_text⟩]
              files := st1.files ++ [(xml_filename, xml_text)] }
        else
          genLoop tpl cfg deltaSec fuel { st1 with rng := rng2, seen := res.2 }
    else st

/-- A full generation run: the loop with the attempt budget n times 20,
the clock reading (milliseconds past the floor) entering only as the
whole-second width of the date range. -/
def runGeneration (tpl : Elem) (cfg : Config) (nowMs : Nat) (rng : RState) : RunState :=
  genLoop tpl cfg (nowMs / 1000) (cfg.n * 20) (initialRunState rng)

/-- read_xml of the source over the parse outcome: a document that does
not parse exits the process (the error case) before anything else
happens. -/
def read_xml (parsed : Option Elem) : Except String Elem :=
  match parsed with
  | none => Except.error "Failed to parse XML"
  | some t => Except.ok t

/-- Fallback mapping of main when no mapping is configured: the four
built-in tag names, matched namespace-agnostically. -/
def DEFAULT_MAPPING : List (String × String) :=
  [("name", "name"), ("address", "address"), ("date", "date"), ("time", "time")]

/-- Default date-format pool of the CLI. -/
def DEFAULT_DATE_FORMATS : List String :=
  ["%Y-%m-%d", "%d/%m/%Y", "%m-%d-%Y", "%d %b %Y", "%B %d, %Y", "%Y%m%d"]

/-- Default time-format pool of the CLI. -/
def DEFAULT_TIME_FORMATS : List String :=
  ["%H:%M", "%H:%M:%S", "%I:%M %p", "%H:%M:%S.%f"]

/-- Manifest header row of main. -/
def MANIFEST_HEADER : List String :=
  ["variant_id", "xml_filename", "name", "address", "date", "time", "xml_content"]

/-- Observable output of a successful run of main: the manifest rows
(header first, then one row per accepted variant in acceptance order),
the variant files written, the count and the exhaustion warning flag. -/
structure MainOutput where
  manifest : List (List String)
  files : List (String × String)
  generated_count : Nat
  warned : Bool
deriving DecidableEq

/-- main of the source over the parse outcome: a parse failure exits
before the manifest is opened and before any variant file is written;
otherwise the effective mapping is the configured one or the built-in
fallback, the generation loop runs, and the manifest and files are
emitted, with the warning exactly when the attempt budget was exhausted
short of n.  The output directory creation that precedes parsing
produces no file content and is not modelled. -/
def mainModel (parsed : Option Elem) (cfg : Config) (rng : RState) (nowMs : Nat) :
    Except String MainOutput :=
  match read_xml parsed with
  | Except.error e => Except.error e
  | Except.ok tpl =>
    let mappingEff := if cfg.mapping.isEmpty then DEFAULT_MAPPING else cfg.mapping
    let cfg2 := { cfg with mapping := mappingEff }
    let final := genLoop tpl cfg2 (nowMs / 1000) (cfg2.n * 20) (initialRunState rng)
    Except.ok
      { manifest := MANIFEST_HEADER :: final.accepted.map rowOf
        files := final.files
        generated_count := final.accepted.length
        warned := decide (final.attempts ≥ cfg2.n * 20 ∧ final.accepted.length < cfg2.n) }

/-- Variant files written by a main outcome: none when the process
exited on the parse failure. -/
def filesOf : Except String MainOutput → List (String × String)
  | Except.error _ => []
  | Except.ok o => o.files

/-- Whether a main outcome created the manifest file. -/
def manifestCreated : Except String MainOutput → Bool
  | Except.error _ => false
  | Except.ok _ => true

/-- Manifest rows of a main outcome: none when the process exited on
the parse failure. -/
def manifestOf : Except String MainOutput → List (List String)
  | Except.error _ => []
  | Except.ok o => o.manifest

/-- Loop invariant for uniqueness: every accepted projection is in the
uniqueness set, the accepted projections are pairwise distinct, and one
file was written per accepted variant. -/
def loopInv (cfg : Config) (st : RunState) : Prop :=
  (∀ r ∈ st.accepted, valsTupleOf cfg.mapping r.values ∈ st.seen) ∧
  (st.accepted.map (fun r => valsTupleOf cfg.mapping r.values)).Nodup ∧
  st.files.length = st.accepted.length

/-- The template value after a sequence of variant builds, as the
source loop uses it: each build receives the template and binds its
result to a separate tree, the template variable itself being carried
to the next iteration. -/
def templateAfterBuilds (t : Elem) (m : List (String × String))
    (vss : List ValueSet) : Elem :=
  vss.foldl (fun cur vs =>
    let _ := apply_values_to_tree cur m vs
    cur) t

/-- Concrete tree whose root element is named Address: the structural
path of the dotted-descendant form finds only strict descendants, so it
yields nothing here although an Address element exists in the tree. -/
def c3root : Elem := .mk "Address" (some "orig") [.mk "Data" none []]

/-- Concrete template with one Name element, used to evaluate whole
runs. -/
def tplX : Elem := .mk "r" none [.mk "Name" none []]

/-- Concrete configuration: generic locale, one-entry format pools,
format varying disabled, one requested variant, the name field mapped
to the Name tag. -/
def cfgX : Config := ⟨"generic", ["d"], ["t"], false, 1, [("name", "Name")], "base"⟩

/-- The variant record the run of tplX and cfgX accepts on the all-zero
oracle stream at clock reading zero. -/
def recX : VariantRecord :=
  ⟨1, "base_variant_001.xml",
   [("name", "Alex Smith"), ("address", "1 Main St, Springfield CA 10000"),
    ("date", "d@0"), ("time", "t@0")],
   "<?xml version='1.0' encoding='utf-8'?>\n<r><Name>Alex Smith</Name></r>"⟩

/-- The ValueSet generated from the empty oracle stream with the
one-entry pools, format varying disabled, at clock reading zero. -/
def vsX : ValueSet :=
  [("name", "Alex Smith"), ("address", "1 Main St, Springfield CA 10000"),
   ("date", "d@0"), ("time", "t@0")]

/-- Oracle stream whose eleventh draw (the date draw) is one: the drawn
instant then depends on the clock reading. -/
def rngC4 : RState := [0, 0, 0, 0, 0, 0, 0, 0, 0, 0, 1]

/-- Induction over element trees: to prove a property of every element
it suffices to prove it for a node assuming it for all children. -/
theorem Elem.strong_ind (P : Elem → Prop)
    (h : ∀ t x cs, (∀ c ∈ cs, P c) → P (.mk t x cs)) : ∀ e, P e := by
  have key : ∀ n e, sizeOf e ≤ n → P e := by
    intro n
    induction n with
    | zero =>
      intro e he
      cases e with
      | mk t x cs => simp at he
    | succ n ih =>
      intro e he
      cases e with
      | mk t x cs =>
        apply h
        intro c hc
        apply ih
        have h1 := List.sizeOf_lt_of_mem hc
        simp at he ⊢
        omega
  intro e
  exact key (sizeOf e) e le_rfl

/-- Rejection test of ensure_unique: the tuple is rejected exactly when
it is already in the uniqueness set. -/
theorem ensure_unique_fst_false_iff (s : List (List String)) (t : List String) :
    (ensure_unique s t).1 = false ↔ t ∈ s := by
  unfold ensure_unique
  by_cases h : t ∈ s <;> simp [h]

/-- Acceptance test of ensure_unique: the tuple is accepted exactly
when it is new, and then the set grows by it. -/
theorem ensure_unique_fst_true_iff (s : List (List String)) (t : List String) :
    (ensure_unique s t).1 = true ↔ t ∉ s := by
  unfold ensure_unique
  by_cases h : t ∈ s <;> simp [h]

/-- Acceptance extends the uniqueness set by exactly the new tuple. -/
theorem ensure_unique_snd_of_true (s : List (List String)) (t : List String)
    (h : (ensure_unique s t).1 = true) : (ensure_unique s t).2 = t :: s := by
  unfold ensure_unique at h ⊢
  by_cases hm : t ∈ s
  · simp [hm] at h
  · simp [hm]

/-- The attempt counter grows by at most the remaining fuel. -/
theorem genLoop_attempts_le (tpl : Elem) (cfg : Config) (d : Nat) :
    ∀ fuel st, (genLoop tpl cfg d fuel st).attempts ≤ st.attempts + fuel := by
  intro fuel
  induction fuel with
  | zero => intro st; simp [genLoop]
  | succ fuel ih =>
    intro st
    rw [genLoop]
    split
    · dsimp only
      split
      · simp only
        omega
      · split
        · exact le_trans (ih _) (by simp only; omega)
        · exact le_trans (ih _) (by simp only; omega)
    · omega

/-- The accepted count never exceeds the requested count. -/
theorem genLoop_accepted_le (tpl : Elem) (cfg : Config) (d : Nat) :
    ∀ fuel st, st.accepted.length ≤ cfg.n →
      (genLoop tpl cfg d fuel st).accepted.length ≤ cfg.n := by
  intro fuel
  induction fuel with
  | zero => intro st h; simpa [genLoop] using h
  | succ fuel ih =>
    intro st h
    rw [genLoop]
    split
    · rename_i hlt
      dsimp only
      split
      · simpa using h
      · split
        · apply ih
          simp
          omega
        · exact ih _ (by simpa using h)
    · exact h

/-- Rejection leaves the uniqueness set unchanged. -/
theorem ensure_unique_snd_of_false (s : List (List String)) (t : List String)
    (h : (ensure_unique s t).1 = false) : (ensure_unique s t).2 = s := by
  unfold ensure_unique at h ⊢
  by_cases hm : t ∈ s
  · simp [hm]
  · simp [hm] at h

/-- The generation loop preserves the uniqueness invariant. -/
theorem genLoop_inv (tpl : Elem) (cfg : Config) (d : Nat) :
    ∀ fuel st, loopInv cfg st → loopInv cfg (genLoop tpl cfg d fuel st) := by
  intro fuel
  induction fuel with
  | zero => intro st h; simpa [genLoop] using h
  | succ fuel ih =>
    intro st h
    obtain ⟨h1, h2, h3⟩ := h
    rw [genLoop]
    split
    · dsimp only
      split
      · exact ⟨by simpa using h1, by simpa using h2, by simpa using h3⟩
      · rename_i values rng2 heq
        split
        · rename_i hres
          apply ih
          have hnot : valsTupleOf cfg.mapping values ∉ st.seen :=
            (ensure_unique_fst_true_iff _ _).mp (by simpa using hres)
          have hsnd : (ensure_unique st.seen (valsTupleOf cfg.mapping values)).2 =
              valsTupleOf cfg.mapping values :: st.seen :=
            ensure_unique_snd_of_true _ _ (by simpa using hres)
          refine ⟨?_, ?_, ?_⟩
          · intro r hr
            simp only [hsnd]
            simp only [List.mem_append, List.mem_singleton] at hr
            rcases hr with hr | hr
            · exact List.mem_cons_of_mem _ (h1 r (by simpa using hr))
            · subst hr
              simp
          · simp only [List.map_append, List.map_cons, List.map_nil, List.nodup_append]
            refine ⟨by simpa using h2, by simp, ?_⟩
            intro a ha
            simp only [List.mem_map] at ha
            obtain ⟨r, hr, hra⟩ := ha
            simp only [List.mem_cons, List.not_mem_nil, or_false]
            intro hcontra
            apply hnot
            rw [← hcontra, ← hra]
            exact h1 r (by simpa using hr)
          · simp
            omega
        · rename_i hres
          apply ih
          have hfalse : (ensure_unique st.seen (valsTupleOf cfg.mapping values)).1 = false := by
            simp only [Bool.not_eq_true] at hres
            simpa using hres
          have hsnd := ensure_unique_snd_of_false _ _ hfalse
          exact ⟨by simpa [hsnd] using h1, by simpa using h2, by simpa using h3⟩
    · exact ⟨h1, h2, h3⟩

/-- C1: in every single generation run, the projections of the accepted
variants' ValueSets onto the mapping's used keys are pairwise distinct,
and exactly one file write happens per accepted variant (a duplicate
candidate is discarded with no build and no write). -/
theorem C1_accepted_projections_pairwise_distinct :
    ∀ tpl cfg nowMs rng,
      ((runGeneration tpl cfg nowMs rng).accepted.map
        (fun r => valsTupleOf cfg.mapping r.values)).Nodup ∧
      (runGeneration tpl cfg nowMs rng).files.length =
        (runGeneration tpl cfg nowMs rng).accepted.length := by
  intro tpl cfg nowMs rng
  have h := genLoop_inv tpl cfg (nowMs / 1000) (cfg.n * 20) (initialRunState rng)
    ⟨by simp [initialRunState], by simp [initialRunState], by simp [initialRunState]⟩
  exact ⟨h.2.1, h.2.2⟩

/-- C2: every run stops after at most n times 20 attempts (the loop is
total with that attempt budget) and accepts at most n variants. -/
theorem C2_attempt_budget_respected :
    ∀ tpl cfg nowMs rng,
      (runGeneration tpl cfg nowMs rng).attempts ≤ cfg.n * 20 ∧
      (runGeneration tpl cfg nowMs rng).accepted.length ≤ cfg.n := by
  intro tpl cfg nowMs rng
  constructor
  · have h := genLoop_attempts_le tpl cfg (nowMs / 1000) (cfg.n * 20) (initialRunState rng)
    simpa [initialRunState] using h
  · exact genLoop_accepted_le tpl cfg (nowMs / 1000) (cfg.n * 20) (initialRunState rng)
      (by simp [initialRunState])

/-- The structural deep copy reproduces the tree exactly: the clone of
a template is equal to it (and independent, being a fresh rebuild). -/
theorem ET_clone_eq : ∀ e : Elem, ET_clone e = e := by
  intro e
  induction e using Elem.strong_ind with
  | h t x cs ih =>
    rw [ET_clone]
    congr 1
    induction cs with
    | nil => rfl
    | cons c cs ihl =>
      rw [ET_cloneList, ih c (by simp), ihl (fun c2 hm => ih c2 (by simp [hm]))]

/-- C5: building variants never mutates the original template.  The
clone used for every build is a faithful independent deep copy equal to
the template, the template value carried through any sequence of build
calls is unchanged, and in particular its serialized form before and
after any number of builds is identical. -/
theorem C5_template_never_mutated :
    (∀ e, ET_clone e = e) ∧
    (∀ t m vss, templateAfterBuilds t m vss = t) ∧
    (∀ t m vss, ET_tostring (templateAfterBuilds t m vss) = ET_tostring t) := by
  have hfold : ∀ (m : List (String × String)) (vss : List ValueSet) (t : Elem),
      templateAfterBuilds t m vss = t := by
    intro m vss
    induction vss with
    | nil => intro t; rfl
    | cons vs vss ih =>
      intro t
      have : templateAfterBuilds t m (vs :: vss) = templateAfterBuilds t m vss := rfl
      rw [this, ih]
  exact ⟨ET_clone_eq, fun t m vss => hfold m vss t, fun t m vss => by rw [hfold m vss t]⟩

/-- C9: a template document that cannot be parsed aborts the run before
any generation: the outcome is the fatal parse error, no variant file
is written and the manifest is never created. -/
theorem C9_parse_failure_produces_no_output :
    ∀ cfg rng nowMs,
      mainModel none cfg rng nowMs = Except.error "Failed to parse XML" ∧
      filesOf (mainModel none cfg rng nowMs) = [] ∧
      manifestCreated (mainModel none cfg rng nowMs) = false := by
  intro cfg rng nowMs
  exact ⟨rfl, rfl, rfl⟩

/-- C3 counterexample: for the dotted-descendant selector of the
Address tag over a tree whose only Address element is its root, the
structural query succeeds with an empty result, no fallback happens
although the namespace-agnostic search would find the element, and the
mutation does not happen (the claim asserts the fallback locates the
element and the mutation succeeds). -/
theorem C3_counterexample_empty_result_no_fallback :
    (select_elements c3root ".//Address").length = 0 ∧
    (find_elements_ns_agnostic c3root "Address").map Elem.tag = ["Address"] ∧
    ET_tostring (apply_values_to_tree c3root [("address", ".//Address")]
      [("address", "X")]).1 = ET_tostring c3root ∧
    (apply_values_to_tree c3root [("address", ".//Address")] [("address", "X")]).2 =
      [("address", [])] := by
  refine ⟨by decide, by decide, by decide, by decide⟩

/-- C3 amended: for a selector beginning with a structural-path marker,
resolution returns the structural query result as-is whenever the query
returns, even when that result is empty; the namespace-agnostic
fallback (leading markers stripped) is used exactly when the query
raises. -/
theorem C3_fallback_exactly_on_raise :
    ∀ root sel,
      (firstCharIs (pyStrip sel) '.' || firstCharIs (pyStrip sel) '/') = true →
      (ET_findall root (pyStrip sel) = none →
        select_elements root sel = find_elements_ns_agnostic root (stripDotSlash (pyStrip sel))) ∧
      (∀ els, ET_findall root (pyStrip sel) = some els → select_elements root sel = els) := by
  intro root sel h
  constructor
  · intro hnone
    simp only [select_elements, h, if_true, hnone]
  · intro els hsome
    simp only [select_elements, h, if_true, hsome]

/-- C3 witness: the absolute-path selector of the Address tag raises in
the structural query, and resolution indeed falls back to the
namespace-agnostic search with the leading slash stripped. -/
theorem C3_fallback_witness :
    (firstCharIs (pyStrip "/Address") '.' || firstCharIs (pyStrip "/Address") '/') = true ∧
    ET_findall c3root (pyStrip "/Address") = none ∧
    select_elements c3root "/Address" =
      find_elements_ns_agnostic c3root (stripDotSlash (pyStrip "/Address")) :=
  ⟨by decide, Option.isNone_iff_eq_none.mp (by decide),
   (C3_fallback_exactly_on_raise c3root "/Address" (by decide)).1
     (Option.isNone_iff_eq_none.mp (by decide))⟩

/-- C7 counterexample: with a mapping holding the name key and a custom
phone key, the uniqueness projection has a single component, not one
per mapping key: the custom key is filtered out of the used keys and
contributes nothing to the tuple. -/
theorem C7_counterexample_custom_key_excluded :
    usedKeysOf [("name", "Name"), ("phone", "Phone")] = ["name"] ∧
    "phone" ∈ ([("name", "Name"), ("phone", "Phone")].map Prod.fst) ∧
    "phone" ∉ usedKeysOf [("name", "Name"), ("phone", "Phone")] ∧
    valsTupleOf [("name", "Name"), ("phone", "Phone")]
      [("name", "N"), ("address", "A"), ("date", "D"), ("time", "T")] = ["N"] := by
  refine ⟨by decide, by decide, by decide, by decide⟩

/-- C7 amended: the uniqueness tuple has one component per built-in key
(name, address, date, time, in that fixed order) present in the
mapping; custom keys contribute no component; an attempt is rejected
exactly when that projection was seen before in the run. -/
theorem C7_projection_over_builtin_mapping_keys :
    (∀ mapping k, k ∈ usedKeysOf mapping ↔
      (k ∈ BUILTIN_KEYS ∧ (mapping.lookup k).isSome = true)) ∧
    (∀ s t, (ensure_unique s t).1 = false ↔ t ∈ s) := by
  constructor
  · intro mapping k
    unfold usedKeysOf
    simp [List.mem_filter]
  · exact ensure_unique_fst_false_iff

/-- The sign condition of the source (plus for positive hours, or zero
hours with nonnegative minutes) coincides, for nonnegative minutes,
with the nonnegative-hours convention: minus exactly when hours are
negative. -/
theorem tz_sign_condition (h m : Int) (hm : 0 ≤ m) :
    (if h > 0 ∨ (h = 0 ∧ m ≥ 0) then "+" else "-") = if h < 0 then "-" else "+" := by
  by_cases hlt : h < 0
  · rw [if_neg, if_pos hlt]
    rintro (hc | ⟨hc, _⟩) <;> omega
  · rw [if_pos, if_neg hlt]
    by_cases hz : h = 0
    · exact Or.inr ⟨hz, hm⟩
    · exact Or.inl (by omega)

/-- Structure of every generated timezone offset: some hours in the
range -12..14 and minutes from the quarter-hour set, rendered with the
minus sign exactly when the hours are negative. -/
theorem random_tz_offset_spec : ∀ r : RState, ∃ h m r2,
    random_tz_offset_str r =
      some ((if h < 0 then "-" else "+") ++ pad2 h.natAbs ++ ":" ++ pad2 m.natAbs, r2) ∧
    -12 ≤ h ∧ h ≤ 14 ∧ m ∈ ([0, 15, 30, 45] : List Int) := by
  intro r
  have hm4 : (draw (draw r).2).1 % 4 = 0 ∨ (draw (draw r).2).1 % 4 = 1 ∨
      (draw (draw r).2).1 % 4 = 2 ∨ (draw (draw r).2).1 % 4 = 3 := by omega
  have hm_mem : ([0, 15, 30, 45] : List Int).getD ((draw (draw r).2).1 % 4) 0 ∈
        ([0, 15, 30, 45] : List Int) ∧
      0 ≤ ([0, 15, 30, 45] : List Int).getD ((draw (draw r).2).1 % 4) 0 := by
    rcases hm4 with h4 | h4 | h4 | h4 <;> rw [h4] <;> exact ⟨by decide, by decide⟩
  refine ⟨-12 + Int.ofNat ((draw r).1 % 27),
    ([0, 15, 30, 45] : List Int).getD ((draw (draw r).2).1 % 4) 0,
    (draw (draw r).2).2, ?_, ?_, ?_, hm_mem.1⟩
  · unfold random_tz_offset_str randint choiceL
    have h27 : ((14 : Int) - (-12) + 1).toNat = 27 := by decide
    simp only [if_neg (by decide : ¬((14 : Int) < -12)), h27, Option.bind_eq_bind,
      Option.some_bind, List.length_cons, List.length_nil]
    rw [tz_sign_condition _ _ hm_mem.2]
  · have hcast : Int.ofNat ((draw r).1 % 27) = (((draw r).1 % 27 : Nat) : Int) := rfl
    rw [hcast]
    omega
  · have hcast : Int.ofNat ((draw r).1 % 27) = (((draw r).1 % 27 : Nat) : Int) := rfl
    rw [hcast]
    omega

/-- C8: with format varying on, the zone decision and the zulu-or-offset
choice are uniform two-way draws (even oracle draws give the one
outcome, odd draws the other, so each has half the residues), and every
generated numeric offset has hours in -12..14, minutes among 0, 15, 30
and 45, and a minus sign exactly when the hours are negative. -/
theorem C8_timezone_choices_and_offset_structure :
    (∀ k r, choiceL [true, false] (2 * k :: r) = some (true, r)) ∧
    (∀ k r, choiceL [true, false] ((2 * k + 1) :: r) = some (false, r)) ∧
    (∀ dt df tf k r, format_date_time dt df tf true (2 * k :: r) =
      some (strftime df dt, strftime tf dt ++ "Z", r)) ∧
    (∀ dt df tf k r, ∃ h m r2 s,
      random_tz_offset_str r = some (s, r2) ∧
      format_date_time dt df tf true ((2 * k + 1) :: r) =
        some (strftime df dt, strftime tf dt ++ s, r2) ∧
      -12 ≤ h ∧ h ≤ 14 ∧ m ∈ ([0, 15, 30, 45] : List Int) ∧
      s = (if h < 0 then "-" else "+") ++ pad2 h.natAbs ++ ":" ++ pad2 m.natAbs) := by
  have heven : ∀ k : Nat, (2 * k) % 2 = 0 := fun k => by omega
  have hodd : ∀ k : Nat, (2 * k + 1) % 2 = 1 := fun k => by omega
  refine ⟨?_, ?_, ?_, ?_⟩
  · intro k r
    simp [choiceL, draw, heven k]
  · intro k r
    simp [choiceL, draw, hodd k]
  · intro dt df tf k r
    simp [format_date_time, choiceL, draw, heven k]
  · intro dt df tf k r
    obtain ⟨h, m, r2, heq, h1, h2, h3⟩ := random_tz_offset_spec r
    refine ⟨h, m, r2,
      (if h < 0 then "-" else "+") ++ pad2 h.natAbs ++ ":" ++ pad2 m.natAbs,
      heq, ?_, h1, h2, h3, rfl⟩
    simp [format_date_time, choiceL, draw, hodd k, heq]

/-- With format varying disabled, every generated ValueSet renders its
date with the first date-pool entry and its time with the first
time-pool entry, with nothing appended to the time. -/
theorem generate_no_vary_first_fmts (locale : String) (dfs tfs : List String) (d : Nat)
    (r : RState) (vs : ValueSet) (r2 : RState)
    (h : generate_variant_values locale dfs tfs false d r = some (vs, r2)) :
    ∃ d0 t0 dt, dfs.get? 0 = some d0 ∧ tfs.get? 0 = some t0 ∧
      vs.lookup "date" = some (strftime d0 dt) ∧
      vs.lookup "time" = some (strftime t0 dt) := by
  unfold generate_variant_values at h
  simp only [Option.bind_eq_bind, Option.bind_eq_some, Bool.false_eq_true, if_false] at h
  obtain ⟨⟨nfs, ra⟩, hna, h⟩ := h
  obtain ⟨⟨nc, rb⟩, hnc, h⟩ := h
  obtain ⟨⟨afs, rc⟩, haf, h⟩ := h
  obtain ⟨⟨ac, rd⟩, hac, h⟩ := h
  obtain ⟨⟨dt, re⟩, hdt, h⟩ := h
  obtain ⟨d0, hd0, h⟩ := h
  obtain ⟨t0, ht0, h⟩ := h
  obtain ⟨⟨ds, ts, rf⟩, hft, h⟩ := h
  unfold format_date_time at hft
  simp only [Bool.false_eq_true, if_false, Option.some.injEq, Prod.mk.injEq] at hft
  obtain ⟨hds, hts, hre⟩ := hft
  simp only [Option.some.injEq, Prod.mk.injEq] at h
  obtain ⟨hvs, hr2⟩ := h
  refine ⟨d0, t0, dt, hd0, ht0, ?_, ?_⟩
  · rw [← hvs, ← hds]
    simp [List.lookup]
  · rw [← hvs, ← hts]
    simp [List.lookup]

/-- Every generated ValueSet holds exactly the four built-in keys, in
the dict insertion order of the source. -/
theorem generate_keys (locale : String) (dfs tfs : List String) (vary : Bool) (d : Nat)
    (r : RState) (vs : ValueSet) (r2 : RState)
    (h : generate_variant_values locale dfs tfs vary d r = some (vs, r2)) :
    vs.map Prod.fst = BUILTIN_KEYS := by
  unfold generate_variant_values at h
  simp only [Option.bind_eq_bind, Option.bind_eq_some] at h
  obtain ⟨⟨nfs, ra⟩, hna, h⟩ := h
  obtain ⟨⟨nc, rb⟩, hnc, h⟩ := h
  obtain ⟨⟨afs, rc⟩, haf, h⟩ := h
  obtain ⟨⟨ac, rd⟩, hac, h⟩ := h
  obtain ⟨⟨dt, re⟩, hdt, h⟩ := h
  cases vary with
  | true =>
    simp only [if_true] at h
    simp only [Option.bind_eq_some] at h
    obtain ⟨⟨df, rf⟩, hdf, h⟩ := h
    obtain ⟨⟨tf, rg⟩, htf, h⟩ := h
    obtain ⟨⟨wz, rh⟩, hwz, h⟩ := h
    obtain ⟨⟨ds, ts, ri⟩, hft, h⟩ := h
    simp only [Option.some.injEq, Prod.mk.injEq] at h
    rw [← h.1]
    rfl
  | false =>
    simp only [Bool.false_eq_true, if_false, Option.bind_eq_some] at h
    obtain ⟨d0, hd0, h⟩ := h
    obtain ⟨t0, ht0, h⟩ := h
    obtain ⟨⟨ds, ts, rf⟩, hft, h⟩ := h
    simp only [Option.some.injEq, Prod.mk.injEq] at h
    rw [← h.1]
    rfl

/-- Association-list lookup misses every key outside the key column. -/
theorem lookup_eq_none_of_not_mem_keys (l : List (String × String)) (k : String)
    (h : k ∉ l.map Prod.fst) : l.lookup k = none := by
  induction l with
  | nil => rfl
  | cons a l ih =>
    simp only [List.map_cons, List.mem_cons, not_or] at h
    have hne : (k == a.1) = false := beq_eq_false_iff_ne.mpr h.1
    simp [List.lookup, hne, ih h.2]

/-- Mapping entries whose key has no generated value are skipped by the
variant builder: filtering them away changes nothing. -/
theorem apply_values_filter (tpl : Elem) (vs : ValueSet)
    (h : ∀ k, k ∉ BUILTIN_KEYS → vs.lookup k = none) :
    ∀ mapping, apply_values_to_tree tpl mapping vs =
      apply_values_to_tree tpl (mapping.filter (fun kv => BUILTIN_KEYS.contains kv.1)) vs := by
  have hfold : ∀ (mapping : List (String × String)) (acc : Elem × List (String × List String)),
      mapping.foldl (fun acc kv =>
        match vs.lookup kv.1 with
        | none => acc
        | some v =>
          let els := select_elements acc.1 kv.2
          (mutateSelected acc.1 kv.2 v, acc.2 ++ [(kv.1, List.replicate els.length kv.2)])) acc =
      (mapping.filter (fun kv => BUILTIN_KEYS.contains kv.1)).foldl (fun acc kv =>
        match vs.lookup kv.1 with
        | none => acc
        | some v =>
          let els := select_elements acc.1 kv.2
          (mutateSelected acc.1 kv.2 v, acc.2 ++ [(kv.1, List.replicate els.length kv.2)])) acc := by
    intro mapping
    induction mapping with
    | nil => intro acc; rfl
    | cons kv rest ih =>
      intro acc
      by_cases hk : BUILTIN_KEYS.contains kv.1
      · rw [List.filter_cons]
        simp only [hk, if_true, List.foldl_cons]
        exact ih _
      · have hno : vs.lookup kv.1 = none := by
          apply h
          intro hmem
          exact hk (by simpa using hmem)
        rw [List.filter_cons]
        simp only [hk, if_false, List.foldl_cons, hno, Bool.false_eq_true]
        exact ih _
  intro mapping
  unfold apply_values_to_tree
  exact hfold mapping _

/-- Any property of ValueSets that value generation guarantees holds
for the values of every variant the loop accepts. -/
theorem genLoop_accepted_values_prop (tpl : Elem) (cfg : Config) (d : Nat)
    (P : ValueSet → Prop)
    (hgen : ∀ r vs r2, generate_variant_values cfg.locale cfg.date_formats cfg.time_formats
      cfg.vary_formats d r = some (vs, r2) → P vs) :
    ∀ fuel st, (∀ rec ∈ st.accepted, P rec.values) →
      ∀ rec ∈ (genLoop tpl cfg d fuel st).accepted, P rec.values := by
  intro fuel
  induction fuel with
  | zero => intro st h; simpa [genLoop] using h
  | succ fuel ih =>
    intro st h
    rw [genLoop]
    split
    · dsimp only
      split
      · simpa using h
      · rename_i values rng2 heq
        split
        · apply ih
          intro rec hrec
          simp only [List.mem_append, List.mem_singleton] at hrec
          rcases hrec with hrec | hrec
          · exact h rec (by simpa using hrec)
          · subst hrec
            exact hgen _ _ _ heq
        · apply ih
          intro rec hrec
          exact h rec (by simpa using hrec)
    · exact h

/-- C6: with format varying disabled, every accepted variant of a run
carries a date rendered with the first date-pool entry and a time
rendered with the first time-pool entry, with no timezone suffix
appended (the time value is exactly the bare rendering of the drawn
instant). -/
theorem C6_no_vary_first_pool_entries_no_zone :
    ∀ tpl cfg nowMs rng, cfg.vary_formats = false →
      ∀ rec ∈ (runGeneration tpl cfg nowMs rng).accepted,
        ∃ d0 t0 dt, cfg.date_formats.get? 0 = some d0 ∧ cfg.time_formats.get? 0 = some t0 ∧
          rec.values.lookup "date" = some (strftime d0 dt) ∧
          rec.values.lookup "time" = some (strftime t0 dt) := by
  intro tpl cfg nowMs rng hv rec hrec
  refine genLoop_accepted_values_prop tpl cfg (nowMs / 1000)
    (fun vs => ∃ d0 t0 dt, cfg.date_formats.get? 0 = some d0 ∧
      cfg.time_formats.get? 0 = some t0 ∧
      vs.lookup "date" = some (strftime d0 dt) ∧
      vs.lookup "time" = some (strftime t0 dt)) ?_ (cfg.n * 20) (initialRunState rng)
    (by simp [initialRunState]) rec hrec
  intro r vs r2 hgen
  rw [hv] at hgen
  exact generate_no_vary_first_fmts cfg.locale cfg.date_formats cfg.time_formats
    (nowMs / 1000) r vs r2 hgen

/-- C6 witness: the one-variant run of the concrete configuration with
one-entry pools and varying disabled accepts a record whose date and
time are the first-pool renderings of the drawn instant. -/
theorem C6_no_vary_witness :
    cfgX.vary_formats = false ∧
    (∃ d0 t0 dt, cfgX.date_formats.get? 0 = some d0 ∧ cfgX.time_formats.get? 0 = some t0 ∧
      recX.values.lookup "date" = some (strftime d0 dt) ∧
      recX.values.lookup "time" = some (strftime t0 dt)) :=
  ⟨rfl, C6_no_vary_first_pool_entries_no_zone tplX cfgX 0 [] rfl recX (by decide)⟩

/-- C10: every generated ValueSet holds exactly the four built-in keys
name, address, date, time; a custom mapping key therefore never has a
generated value, the variant builder skips it entirely (filtering the
mapping to the built-in keys changes nothing), and the used-key
projection never contains it. -/
theorem C10_valueset_exactly_builtin_keys :
    ∀ locale dfs tfs vary d r vs r2,
      generate_variant_values locale dfs tfs vary d r = some (vs, r2) →
      vs.map Prod.fst = BUILTIN_KEYS ∧
      (∀ k, k ∉ BUILTIN_KEYS → vs.lookup k = none) ∧
      (∀ tpl mapping, apply_values_to_tree tpl mapping vs =
        apply_values_to_tree tpl
          (mapping.filter (fun kv => BUILTIN_KEYS.contains kv.1)) vs) ∧
      (∀ mapping k, k ∈ usedKeysOf mapping → k ∈ BUILTIN_KEYS) := by
  intro locale dfs tfs vary d r vs r2 h
  have hkeys := generate_keys locale dfs tfs vary d r vs r2 h
  have hnone : ∀ k, k ∉ BUILTIN_KEYS → vs.lookup k = none := by
    intro k hk
    exact lookup_eq_none_of_not_mem_keys vs k (by rw [hkeys]; exact hk)
  refine ⟨hkeys, hnone, fun tpl mapping => apply_values_filter tpl vs hnone mapping, ?_⟩
  intro mapping k hk
  unfold usedKeysOf at hk
  exact (List.mem_filter.mp hk).1

/-- C10 witness: the concrete generated ValueSet has exactly the four
built-in keys, misses the custom phone key, and the builder treats a
mapping with a phone entry exactly as the same mapping without it. -/
theorem C10_valueset_witness :
    vsX.map Prod.fst = BUILTIN_KEYS ∧
    vsX.lookup "phone" = none ∧
    apply_values_to_tree tplX [("phone", "Phone"), ("name", "Name")] vsX =
      apply_values_to_tree tplX
        ([("phone", "Phone"), ("name", "Name")].filter
          (fun kv => BUILTIN_KEYS.contains kv.1)) vsX ∧
    "name" ∈ BUILTIN_KEYS := by
  have h := C10_valueset_exactly_builtin_keys "generic" ["d"] ["t"] false 0 [] vsX []
    (by decide)
  exact ⟨h.1, h.2.1 "phone" (by decide), h.2.2.1 tplX [("phone", "Phone"), ("name", "Name")],
    h.2.2.2 [("name", "Name")] "name" (by decide)⟩

/-- C4: two runs with identical configuration, identical template and
the same seeded random stream, but different clock readings, produce
different manifest content: the drawn instant range depends on the
current time, so same-seed reruns are not byte-identical. -/
theorem C4_same_seed_runs_differ_with_clock :
    manifestOf (mainModel (some tplX) cfgX rngC4 0) ≠
      manifestOf (mainModel (some tplX) cfgX rngC4 2000) := by
  decide

end XmlVariants
